import Mathlib

set_option maxHeartbeats 1000000

/-!
Verification development for the min-kb-mcp knowledge-base server.

The development shallowly embeds the core of the system:
the sql.js-backed DatabaseService (src/db/database.ts, the WASM variant
described by the changelog and exercised by the test-suite), the
FileManager (src/core/file-manager.ts) and the MCP tool handlers of
src/server.ts that coordinate the two.

SQLite tables are lists of rows in insertion order; INSERT ... ON CONFLICT
upserts update the matching row in place and otherwise append.  Failures of
the underlying engine (disk errors, closed handles) are injected through
explicit fault parameters; a thrown JavaScript error is a JsErr value
carrying the constructor name and the message, mirroring Error.name and
Error.message.  External collaborators (the FTS5 tokenizer and stemmer, the
remove-markdown stripper, the bm25 ranking function) are parameters of the
environment, constrained only by how the source code calls them.
-/

/-! Character classes of the JavaScript regular expression engine, for the
ASCII range used by the title-extraction regex of DatabaseService. -/

def isWsChar (c : Char) : Bool :=
  c = ' ' || c = '\t' || c = '\n' || c = '\r' || c = '\x0b' || c = '\x0c'

/-- Characters matched by the dot of a JavaScript regex (no line terminators). -/
def isDotChar (c : Char) : Bool :=
  !(c = '\n' || c = '\r')

/-- JavaScript String.prototype.trim on an explicit character list. -/
def trimChars (l : List Char) : List Char :=
  ((l.dropWhile isWsChar).reverse.dropWhile isWsChar).reverse

/-- ASCII case folding as performed by the SQLite LIKE operator and by the
FTS5 unicode61 tokenizer (restricted to the ASCII range). -/
def lowChar (c : Char) : Char :=
  if 'A' ≤ c && c ≤ 'Z' then Char.ofNat (c.toNat + 32) else c

def lowL (l : List Char) : List Char := l.map lowChar

/-- Alphanumeric characters: the token characters of the FTS5 unicode61
tokenizer, restricted to ASCII. -/
def isAlnumChar (c : Char) : Bool :=
  ('a' ≤ c && c ≤ 'z') || ('A' ≤ c && c ≤ 'Z') || ('0' ≤ c && c ≤ '9')

/-- Worker for the tokenizer: walks the characters carrying the current
(reversed) run of token characters. -/
def tokAux : List Char → List Char → List (List Char)
  | [], cur => if cur = [] then [] else [cur.reverse]
  | c :: cs, cur =>
    if isAlnumChar c then tokAux cs (c :: cur)
    else if cur = [] then tokAux cs [] else cur.reverse :: tokAux cs []

/-- Maximal alphanumeric runs of a character list: the token stream the FTS5
tokenizer produces before case folding and stemming. -/
def rawTokens (l : List Char) : List (List Char) := tokAux l []

/-- Boolean test that nd occurs as a leading block of l. -/
def prefOf : List Char → List Char → Bool
  | [], _ => true
  | _ :: _, [] => false
  | a :: as, b :: bs => a == b && prefOf as bs

/-- Boolean test that nd occurs contiguously somewhere inside hay. -/
def hasSub (hay nd : List Char) : Bool :=
  (List.range (hay.length + 1)).any (fun i => prefOf nd (hay.drop i))

/-!
The title-extraction regex of DatabaseService.extractTitle is
the JavaScript expression matching, in multiline mode, a hash at a line
start, one or more whitespace characters, and a nonempty dot-run captured up
to the end of the line.  The matcher below reproduces the engine behaviour:
leftmost match position, greedy whitespace with backtracking, dot excluding
line terminators, and the multiline end-anchor.
-/

/-- Backtracking over the length k of the whitespace run consumed after the
hash, from the greedy maximum downwards; at each k the remainder of the
pattern succeeds exactly when a dot character follows, and the capture is the
maximal dot-run from there. -/
def pickK (l : List Char) : Nat → Option (List Char)
  | 0 => none
  | k + 1 =>
    match l.drop (k + 1) with
    | [] => pickK l k
    | c :: cs => if isDotChar c then some ((c :: cs).takeWhile isDotChar) else pickK l k

/-- Matches whitespace-then-capture against the characters following a hash;
returns the captured group when the tail matches. -/
def matchTail (l : List Char) : Option (List Char) :=
  pickK l (l.takeWhile isWsChar).length

/-- Scans the input left to right for the first position where the regex
matches: a line start holding a hash whose tail matches. -/
def scan : List Char → Bool → Option (List Char)
  | [], _ => none
  | c :: cs, atStart =>
    if atStart && c = '#' then
      match matchTail cs with
      | some cap => some cap
      | none => scan cs false
    else scan cs (c = '\n' || c = '\r')

/-- DatabaseService.extractTitle: first regex match of the level-1 heading
pattern over the content, capture trimmed; undefined when there is no match. -/
def extractTitle (content : String) : Option String :=
  (scan content.toList true).map (fun cap => String.mk (trimChars cap))

/-- The title stored by DatabaseService.indexArticle: the supplied title when
it is truthy (a nonempty string), otherwise the derived one. -/
def storedTitleFor (title : Option String) (content : String) : Option String :=
  match title with
  | some t => if t = "" then extractTitle content else some t
  | none => extractTitle content

/-! Specification-side reading of title derivation, following the words of
the spec: the text of the first level-1 Markdown heading, trimmed.  Lines are
newline-separated; a level-1 heading line is a hash followed by whitespace. -/

def linesOf : List Char → List (List Char)
  | [] => [[]]
  | c :: cs =>
    if c = '\n' then [] :: linesOf cs
    else
      match linesOf cs with
      | [] => [[c]]
      | l :: ls => (c :: l) :: ls

def isH1Line (l : List Char) : Bool :=
  match l with
  | c :: d :: _ => c = '#' && isWsChar d
  | _ => false

/-- Title as the spec words it: the text of the first level-1 heading line
(everything after the hash), trimmed. -/
def specH1Title (content : String) : Option String :=
  ((linesOf content.toList).find? isH1Line).map (fun l => String.mk (trimChars (l.drop 1)))

/-! Data model of the index database. -/

structure Article where
  id : String
  filePath : String
  title : Option String
  keywords : Option String
  content : String
deriving DecidableEq, Repr

structure MetaRow where
  id : String
  filePath : String
  title : Option String
  keywords : Option String
deriving DecidableEq, Repr

structure ContentRow where
  id : String
  content : String
deriving DecidableEq, Repr

structure FtsRow where
  id : String
  content : String
deriving DecidableEq, Repr

/-- Search capability decided by DatabaseService.initSchema: full-text with
the porter stemmer, full-text without it, or the LIKE substring fallback. -/
inductive SearchCap
  | stemmed
  | plain
  | fallback
deriving DecidableEq, Repr

structure KbState where
  cap : SearchCap
  articles : List MetaRow
  contents : List ContentRow
  fts : List FtsRow
  closed : Bool
  file : Option (List MetaRow × List ContentRow × List FtsRow)
deriving DecidableEq, Repr

instance {ε α : Type} [DecidableEq ε] [DecidableEq α] : DecidableEq (Except ε α)
  | .ok a, .ok b =>
    if h : a = b then isTrue (by rw [h]) else isFalse (fun hh => by cases hh; exact h rfl)
  | .error a, .error b =>
    if h : a = b then isTrue (by rw [h]) else isFalse (fun hh => by cases hh; exact h rfl)
  | .ok _, .error _ => isFalse (fun hh => by cases hh)
  | .error _, .ok _ => isFalse (fun hh => by cases hh)

/-- A thrown JavaScript error: constructor name and message. -/
structure JsErr where
  name : String
  msg : String
deriving DecidableEq, Repr

/-- Environment capabilities and external functions: availability of the two
FTS5 table forms and of bm25, the porter stemmer, the remove-markdown
stripper, and the bm25 score. -/
structure SqlEnv where
  porterOk : Bool
  plainOk : Bool
  bm25Ok : Bool
  porter : String → String
  stripMd : String → String
  bm25 : String → String → Int

/-- Fault injection for one indexArticle call: each field, when set, makes
the corresponding write throw with that message. -/
structure WriteFaults where
  meta : Option String
  content : Option String
  fts : Option String
  fs : Option String
deriving DecidableEq, Repr

abbrev noFaults : WriteFaults :=
  { meta := none, content := none, fts := none, fs := none }

def dbErr (op m : String) : JsErr := { name := "DatabaseError", msg := op ++ m }

def snapshotOf (s : KbState) : List MetaRow × List ContentRow × List FtsRow :=
  (s.articles, s.contents, s.fts)

/-- Capability selected by the progressive probe of initSchema: porter form
first, plain form second, fallback last. -/
def initCap (porterOk plainOk : Bool) : SearchCap :=
  if porterOk then .stemmed else if plainOk then .plain else .fallback

/-- Fresh database right after DatabaseService.initialize: empty tables,
capability fixed by the probe, an immediate persist of the empty image. -/
def initState (env : SqlEnv) : KbState :=
  { cap := initCap env.porterOk env.plainOk, articles := [], contents := [], fts := [],
    closed := false, file := some ([], [], []) }

def ftsAvailable (s : KbState) : Bool :=
  match s.cap with
  | .fallback => false
  | _ => true

/-- INSERT ... ON CONFLICT(id) DO UPDATE on the articles table. -/
def upsertMeta (l : List MetaRow) (row : MetaRow) : List MetaRow :=
  if l.any (fun r => r.id == row.id) then
    l.map (fun r =>
      if r.id == row.id then
        { r with filePath := row.filePath, title := row.title, keywords := row.keywords }
      else r)
  else l ++ [row]

/-- INSERT ... ON CONFLICT(id) DO UPDATE on the articles_content table. -/
def upsertContent (l : List ContentRow) (row : ContentRow) : List ContentRow :=
  if l.any (fun r => r.id == row.id) then
    l.map (fun r => if r.id == row.id then { r with content := row.content } else r)
  else l ++ [row]

/-- The FTS block of indexArticle: skipped when the capability state has no
full-text table; otherwise delete-then-insert, and a fault inside the block
(modelled as the insert throwing after the delete) leaves the row deleted. -/
def ftsStep (cap : SearchCap) (ftsFault : Option String) (fts : List FtsRow)
    (id clean : String) : List FtsRow :=
  match cap with
  | .fallback => fts
  | _ =>
    match ftsFault with
    | some _ => fts.filter (fun r => !(r.id == id))
    | none => fts.filter (fun r => !(r.id == id)) ++ [{ id := id, content := clean }]

/-- DatabaseService.indexArticle: derive the title, strip Markdown, upsert the
metadata and content rows, emulate an FTS upsert by delete-then-insert with
errors of that block swallowed, then persist.  On a fault the state reached so
far is kept (sql.js applies each statement immediately) and a DatabaseError
wrapping the cause is thrown. -/
def indexArticle (env : SqlEnv) (f : WriteFaults) (s : KbState) (a : Article) :
    KbState × Option JsErr :=
  if s.closed then
    (s, some (dbErr "Failed to index article: " "Database closed"))
  else
    let title := storedTitleFor a.title a.content
    let clean := env.stripMd a.content
    match f.meta with
    | some m => (s, some (dbErr "Failed to index article: " m))
    | none =>
      let mrow : MetaRow :=
        { id := a.id, filePath := a.filePath, title := title, keywords := a.keywords }
      let s1 := { s with articles := upsertMeta s.articles mrow }
      match f.content with
      | some m => (s1, some (dbErr "Failed to index article: " m))
      | none =>
        let crow : ContentRow := { id := a.id, content := clean }
        let s2 := { s1 with contents := upsertContent s1.contents crow }
        let s3 := { s2 with fts := ftsStep s2.cap f.fts s2.fts a.id clean }
        match f.fs with
        | some m => (s3, some (dbErr "Failed to index article: " m))
        | none => ({ s3 with file := some (snapshotOf s3) }, none)

/-- DatabaseService.deindexArticle: delete the id from all three tables in a
transaction, then persist; only a persist fault is injected (the deletes
commit before it, so the in-memory removal stands even then). -/
def deindexArticle (fsFault : Option String) (s : KbState) (id : String) :
    KbState × Option JsErr :=
  if s.closed then (s, some (dbErr "Failed to deindex article: " "Database closed"))
  else
    let s1 := { s with
      articles := s.articles.filter (fun r => !(r.id == id)),
      contents := s.contents.filter (fun r => !(r.id == id)),
      fts := if ftsAvailable s then s.fts.filter (fun r => !(r.id == id)) else s.fts }
    match fsFault with
    | some m => (s1, some (dbErr "Failed to deindex article: " m))
    | none => ({ s1 with file := some (snapshotOf s1) }, none)

structure SearchResult where
  id : String
  filePath : String
  title : Option String
  keywords : Option String
  rank : Int
deriving DecidableEq, Repr

/-- Concatenation of the inner row lists of a nested loop join. -/
def ljoin {α β : Type} (l : List α) (f : α → List β) : List β :=
  match l with
  | [] => []
  | x :: xs => f x ++ ljoin xs f

/-- Stemming applied by the FTS table created for the capability: the porter
stemmer in the stemmed state, the identity otherwise. -/
def capStem (env : SqlEnv) (cap : SearchCap) : String → String :=
  match cap with
  | .stemmed => env.porter
  | _ => fun q => q

/-- FTS5 MATCH of a bare-term query: every query token occurs, after case
folding and stemming, among the document tokens. -/
def ftsMatchB (st : String → String) (query doc : String) : Bool :=
  (rawTokens query.toList).all (fun t =>
    (rawTokens doc.toList).any (fun d =>
      st (String.mk (lowL d)) == st (String.mk (lowL t))))

def mkHit (a : MetaRow) (rk : Int) : SearchResult :=
  { id := a.id, filePath := a.filePath, title := a.title, keywords := a.keywords, rank := rk }

/-- Row source of the full-text search paths: articles_fts filtered by MATCH,
joined with the articles table on id, with the rank column given by rk. -/
def ftsRows (env : SqlEnv) (s : KbState) (q : String) (rk : String → String → Int) :
    List SearchResult :=
  ljoin (s.fts.filter (fun fr => ftsMatchB (capStem env s.cap) q fr.content))
    (fun fr => (s.articles.filter (fun a => a.id == fr.id)).map
      (fun a => mkHit a (rk q fr.content)))

/-- SQLite LIKE with the pattern percent-query-percent: case-insensitive
substring containment over the ASCII range. -/
def likeMatchB (doc pat : String) : Bool :=
  hasSub (lowL doc.toList) (lowL pat.toList)

/-- Row source of the fallback path: articles_content filtered by LIKE,
joined with the articles table on id, rank zero. -/
def likeRows (s : KbState) (q : String) : List SearchResult :=
  ljoin (s.contents.filter (fun cr => likeMatchB cr.content q))
    (fun cr => (s.articles.filter (fun a => a.id == cr.id)).map (fun a => mkHit a 0))

def rankLE (r1 r2 : SearchResult) : Prop := r1.rank ≤ r2.rank

instance : DecidableRel rankLE := fun a b => inferInstanceAs (Decidable (a.rank ≤ b.rank))

/-- Result rows of DatabaseService.search before the LIMIT truncation: the
bm25-ordered full-text rows when bm25 works, the unordered rank-zero
full-text rows otherwise, and the LIKE rows in the fallback state. -/
def searchRows (env : SqlEnv) (s : KbState) (q : String) : List SearchResult :=
  match s.cap with
  | .fallback => likeRows s q
  | _ =>
    if env.bm25Ok then List.insertionSort rankLE (ftsRows env s q env.bm25)
    else ftsRows env s q (fun _ _ => 0)

/-- SQLite LIMIT semantics: a negative limit means no bound. -/
def takeLim {α : Type} (lim : Int) (l : List α) : List α :=
  if lim < 0 then l else l.take lim.toNat

/-- DatabaseService.search. -/
def search (env : SqlEnv) (s : KbState) (q : String) (lim : Int) :
    Except JsErr (List SearchResult) :=
  if s.closed then .error (dbErr "Failed to search articles: " "Database closed")
  else .ok (takeLim lim (searchRows env s q))

/-- DatabaseService.listArticles: offset is pages-after-the-first times size,
negative offsets clamp to zero, a negative size means no bound; content is
omitted from the returned articles. -/
def listArticles (s : KbState) (page size : Int) : Except JsErr (List Article) :=
  if s.closed then .error (dbErr "Failed to list articles: " "Database closed")
  else .ok ((takeLim size (s.articles.drop ((page - 1) * size).toNat)).map
    (fun r => { id := r.id, filePath := r.filePath, title := r.title,
                keywords := r.keywords, content := "" }))

/-- Export of the in-memory database; throws once the handle is closed. -/
def jsExport (s : KbState) : Except JsErr (List MetaRow × List ContentRow × List FtsRow) :=
  if s.closed then .error { name := "Error", msg := "Database closed" }
  else .ok (snapshotOf s)

/-- Persist: export then write the file, which can fail on disk errors. -/
def persistRun (fsOk : Bool) (s : KbState) : Except JsErr KbState :=
  match jsExport s with
  | .error e => .error e
  | .ok sn => if fsOk then .ok { s with file := some sn }
              else .error { name := "Error", msg := "EIO" }

/-- The close method of the sql.js Database object: a no-op when the handle
is already closed. -/
def jsClose (s : KbState) : KbState :=
  if s.closed then s else { s with closed := true }

/-- DatabaseService.close: persist with errors swallowed, then close the
underlying sql.js handle. -/
def close (fsOk : Bool) (s : KbState) : KbState × Option JsErr :=
  let s1 :=
    match persistRun fsOk s with
    | .ok v => v
    | .error _ => s
  (jsClose s1, none)

/-- One engine operation with its fault injection, for stating lifetime
invariants of the capability state. -/
inductive KbOp
  | indexOp (f : WriteFaults) (a : Article)
  | deindexOp (fsFault : Option String) (id : String)
  | searchOp (q : String) (lim : Int)
  | listOp (page size : Int)
  | closeOp (fsOk : Bool)

def runOp (env : SqlEnv) (s : KbState) : KbOp → KbState
  | .indexOp f a => (indexArticle env f s a).1
  | .deindexOp ff id => (deindexArticle ff s id).1
  | .searchOp _ _ => s
  | .listOp _ _ => s
  | .closeOp fsOk => (close fsOk s).1

def runOps (env : SqlEnv) (s : KbState) : List KbOp → KbState
  | [] => s
  | op :: ops => runOps env (runOp env s op) ops

/-! The Document Store (FileManager) and the tool handlers of MCPServer. -/

def fileErr (op m : String) : JsErr := { name := "FileOperationError", msg := op ++ m }

abbrev Files := List (String × String)

def fsWrite (files : Files) (path content : String) : Files :=
  if files.any (fun p => p.1 == path) then
    files.map (fun p => if p.1 == path then (p.1, content) else p)
  else files ++ [(path, content)]

def fsLookup (files : Files) (path : String) : Option String :=
  (files.find? (fun p => p.1 == path)).map (fun p => p.2)

/-- FileManager.createArticle: fresh uuid, deterministic path, write. -/
def createArticle (fault : Option String) (artDir freshId : String) (files : Files)
    (content : String) : Files × Except JsErr (String × String) :=
  let filePath := artDir ++ "/" ++ freshId ++ ".md"
  match fault with
  | some m => (files, .error (fileErr "Failed to create article: " m))
  | none => (fsWrite files filePath content, .ok (freshId, filePath))

/-- FileManager.readArticle. -/
def readArticle (files : Files) (filePath : String) : Except JsErr String :=
  match fsLookup files filePath with
  | some c => .ok c
  | none => .error (fileErr "Failed to read article: " "ENOENT")

/-- FileManager.updateArticle. -/
def updateArticle (fault : Option String) (files : Files) (filePath newContent : String) :
    Files × Except JsErr Unit :=
  match fault with
  | some m => (files, .error (fileErr "Failed to update article: " m))
  | none => (fsWrite files filePath newContent, .ok ())

/-- FileManager.deleteArticle. -/
def deleteArticle (files : Files) (filePath : String) : Files × Except JsErr Unit :=
  if files.any (fun p => p.1 == filePath) then
    (files.filter (fun p => !(p.1 == filePath)), .ok ())
  else (files, .error (fileErr "Failed to delete article: " "ENOENT"))

structure Sys where
  files : Files
  db : KbState
deriving DecidableEq, Repr

/-- The first text element of an MCP tool response together with its error
flag. -/
structure ToolResult where
  text : String
  isError : Bool
deriving DecidableEq, Repr

/-- The createArticle tool handler of src/server.ts: write the file, index,
and on any caught error report a message; the catch block performs no
compensation.  The third component exposes the caught error. -/
def createArticleTool (env : SqlEnv) (ffault : Option String) (dbf : WriteFaults)
    (artDir freshId : String) (sys : Sys) (content : String)
    (title keywords : Option String) : Sys × ToolResult × Option JsErr :=
  match createArticle ffault artDir freshId sys.files content with
  | (files1, .error e) =>
    ({ sys with files := files1 },
     { text := "Failed to create article: " ++ e.msg, isError := true }, some e)
  | (files1, .ok (id, filePath)) =>
    let r := indexArticle env dbf sys.db
      { id := id, filePath := filePath, title := title, keywords := keywords,
        content := content }
    match r.2 with
    | some e =>
      ({ files := files1, db := r.1 },
       { text := "Failed to create article: " ++ e.msg, isError := true }, some e)
    | none =>
      ({ files := files1, db := r.1 },
       { text := "Article created successfully.", isError := false }, none)

/-- The updateArticle tool handler of src/server.ts: overwrite the file at
the path derived from the id, index, and on any caught error report a
message. -/
def updateArticleTool (env : SqlEnv) (ffault : Option String) (dbf : WriteFaults)
    (artDir : String) (sys : Sys) (id content : String)
    (title keywords : Option String) : Sys × ToolResult × Option JsErr :=
  let filePath := artDir ++ "/" ++ id ++ ".md"
  match updateArticle ffault sys.files filePath content with
  | (files1, .error e) =>
    ({ sys with files := files1 },
     { text := "Failed to update article: " ++ e.msg, isError := true }, some e)
  | (files1, .ok _) =>
    let r := indexArticle env dbf sys.db
      { id := id, filePath := filePath, title := title, keywords := keywords,
        content := content }
    match r.2 with
    | some e =>
      ({ files := files1, db := r.1 },
       { text := "Failed to update article: " ++ e.msg, isError := true }, some e)
    | none =>
      ({ files := files1, db := r.1 },
       { text := "Article updated successfully.", isError := false }, none)

/-- Concrete environment used by closed test instances: both FTS forms are
reported by capability flags of the instance, stripping and stemming are the
identity, bm25 scores zero. -/
def mkEnv (porterOk plainOk bm25Ok : Bool) : SqlEnv :=
  { porterOk := porterOk, plainOk := plainOk, bm25Ok := bm25Ok,
    porter := fun q => q, stripMd := fun q => q, bm25 := fun _ _ => 0 }

/-! Remaining definitions: token containment, page arithmetic, content
shapes and concrete fixtures used by the theorems below. -/

/-- The document contains the query as a whole token, up to the case folding
of the tokenizer. -/
def hasTokenCI (doc tok : String) : Bool :=
  (rawTokens doc.toList).any (fun d => lowL d == lowL tok.toList)

/-- The query is one single token of the tokenizer (a bare term). -/
def singleTokB (q : String) : Bool :=
  rawTokens q.toList == [q.toList]

/-- Ceiling division: the number of pages needed for n rows at page size s. -/
def pageCeil (n s : Nat) : Nat := (n + s - 1) / s

/-- Builds content from leading lines, followed by the remaining characters. -/
def joinPre (pres : List (List Char)) (rest : List Char) : List Char :=
  match pres with
  | [] => rest
  | l :: ls => l ++ '\n' :: joinPre ls rest

/-- Environment whose engine offers no FTS5 at all: the fallback state. -/
def envFB : SqlEnv := mkEnv false false false

/-- Environment with full FTS5 and bm25 support. -/
def envFTS : SqlEnv := mkEnv true true true

/-- A one-word article used by the concrete search scenarios. -/
def catArticle (i : String) : Article :=
  { id := i, filePath := "/" ++ i ++ ".md", title := none, keywords := none, content := "cat" }

/-- Ten articles all containing the token cat, indexed in order. -/
def tenCats : KbState :=
  (["a0", "a1", "a2", "a3", "a4", "a5", "a6", "a7", "a8", "a9"].foldl
    (fun s i => (indexArticle envFB noFaults s (catArticle i)).1) (initState envFB))

/-- The same population after indexing an eleventh matching article. -/
def elevenCats : KbState := (indexArticle envFB noFaults tenCats (catArticle "new")).1

/-- Fault set making the metadata INSERT of one indexArticle call throw. -/
def metaFault (m : String) : WriteFaults :=
  { meta := some m, content := none, fts := none, fs := none }

/-- A createArticle tool call in which the file write succeeds and the index
write then fails with a disk error. -/
def c1Run : Sys × ToolResult × Option JsErr :=
  createArticleTool envFTS none (metaFault "disk I/O error") "/kb/articles" "a1"
    { files := [], db := initState envFTS } "hello" none none

/-- An updateArticle tool call in which the file overwrite succeeds and the
index write then fails. -/
def c2Run : Sys × ToolResult × Option JsErr :=
  updateArticleTool envFTS none (metaFault "boom") "/kb/articles"
    { files := [("/kb/articles/u1.md", "old")], db := initState envFTS }
    "u1" "new text" none none

/-- Fault set making only the full-text insert of one indexArticle call
throw. -/
def c4Faults : WriteFaults :=
  { meta := none, content := none, fts := some "fts corrupt", fs := none }

/-- A store with one indexed article, to be de-indexed. -/
def c5State : KbState :=
  (indexArticle envFB noFaults (initState envFB) (catArticle "gone")).1

/-- Article with a plain heading followed by body text. -/
def c8Article : Article :=
  { id := "w8", filePath := "/w8.md", title := none, keywords := none,
    content := "# Hello\nWorld about cats" }

/-- Article whose first heading line carries no text of its own. -/
def c8XArticle : Article :=
  { id := "x8", filePath := "/x8.md", title := none, keywords := none,
    content := "# \n# Real" }

/-- Article with an explicitly empty title and a heading that captures only
whitespace. -/
def c10Article : Article :=
  { id := "w10", filePath := "/w10.md", title := some "", keywords := none,
    content := "#  " }

/-- Article with an explicitly empty title and an ordinary heading. -/
def c10WArticle : Article :=
  { id := "wa", filePath := "/wa.md", title := some "", keywords := none,
    content := "# T" }

/-! Helper lemmas about the list-level operations of the model. -/

theorem mem_ljoin {α β : Type} (l : List α) (f : α → List β) (b : β) :
    b ∈ ljoin l f ↔ ∃ a ∈ l, b ∈ f a := by
  induction l with
  | nil => simp [ljoin]
  | cons x xs ih => simp [ljoin, ih]

theorem prefOf_of_isPre {a b : List Char} (h : a <+: b) : prefOf a b = true := by
  induction a generalizing b with
  | nil => simp [prefOf]
  | cons x xs ih =>
    obtain ⟨t, ht⟩ := h
    cases b with
    | nil => simp at ht
    | cons y ys =>
      rw [List.cons_append] at ht
      injection ht with h1 h2
      subst h1
      simp only [prefOf, Bool.and_eq_true, beq_self_eq_true, true_and]
      exact ih ⟨t, h2⟩

theorem hasSub_of_isInf {a b : List Char} (h : a <:+: b) : hasSub b a = true := by
  obtain ⟨s, t, hst⟩ := h
  have hlen : s.length ≤ b.length := by
    subst hst; simp [List.length_append]
  have hdrop : b.drop s.length = a ++ t := by
    subst hst
    rw [List.append_assoc, List.drop_left]
  simp only [hasSub, List.any_eq_true]
  refine ⟨s.length, ?_, ?_⟩
  · simp [List.mem_range]; omega
  · rw [hdrop]
    exact prefOf_of_isPre ⟨t, rfl⟩

theorem isInf_map_lowChar {a b : List Char} (h : a <:+: b) : lowL a <:+: lowL b := by
  obtain ⟨s, t, hst⟩ := h
  exact ⟨lowL s, lowL t, by subst hst; simp [lowL]⟩

theorem isInf_cons {a l : List Char} (c : Char) (h : a <:+: l) : a <:+: c :: l := by
  obtain ⟨s, t, hst⟩ := h
  exact ⟨c :: s, t, by subst hst; simp⟩

theorem mem_tokAux {t : List Char} :
    ∀ (l cur : List Char), t ∈ tokAux l cur →
      (∃ a, a <+: l ∧ t = cur.reverse ++ a) ∨ t <:+: l := by
  intro l
  induction l with
  | nil =>
    intro cur h
    simp only [tokAux] at h
    split at h
    · simp at h
    · left
      refine ⟨[], List.nil_prefix, ?_⟩
      simp only [List.mem_singleton] at h
      simp [h]
  | cons c cs ih =>
    intro cur h
    simp only [tokAux] at h
    split at h
    · rcases ih (c :: cur) h with ⟨a, ha, hteq⟩ | hinf
      · left
        refine ⟨c :: a, ⟨ha.choose, by rw [List.cons_append, ha.choose_spec]⟩, ?_⟩
        simp [hteq]
      · right
        exact isInf_cons c hinf
    · split at h
      · rcases ih [] h with ⟨a, ha, hteq⟩ | hinf
        · right
          simp only [List.reverse_nil, List.nil_append] at hteq
          subst hteq
          exact isInf_cons c ha.isInfix
        · right
          exact isInf_cons c hinf
      · rcases List.mem_cons.mp h with hteq | hmem
        · left
          exact ⟨[], List.nil_prefix, by simp [hteq]⟩
        · rcases ih [] hmem with ⟨a, ha, hteq⟩ | hinf
          · right
            simp only [List.reverse_nil, List.nil_append] at hteq
            subst hteq
            exact isInf_cons c ha.isInfix
          · right
            exact isInf_cons c hinf

theorem rawTokens_isInf {t l : List Char} (h : t ∈ rawTokens l) : t <:+: l := by
  rcases mem_tokAux l [] h with ⟨a, ha, hteq⟩ | hinf
  · simp only [List.reverse_nil, List.nil_append] at hteq
    subst hteq
    exact ha.isInfix
  · exact hinf


theorem eq_updMeta (row x : MetaRow) (hx : (x.id == row.id) = true) :
    (if x.id == row.id then
      { x with filePath := row.filePath, title := row.title, keywords := row.keywords }
     else x) =
    ({ id := row.id, filePath := row.filePath, title := row.title,
       keywords := row.keywords } : MetaRow) := by
  have hid : x.id = row.id := by simpa using hx
  rw [if_pos hx]
  cases x
  simp_all

theorem find?_map_updMeta (l : List MetaRow) (row : MetaRow)
    (h : l.any (fun r => r.id == row.id) = true) :
    (l.map (fun r =>
      if r.id == row.id then
        { r with filePath := row.filePath, title := row.title, keywords := row.keywords }
      else r)).find? (fun r => r.id == row.id) =
      some { id := row.id, filePath := row.filePath, title := row.title,
             keywords := row.keywords } := by
  induction l with
  | nil => simp at h
  | cons x xs ih =>
    rw [List.map_cons]
    by_cases hx : (x.id == row.id) = true
    · rw [eq_updMeta row x hx]
      exact List.find?_cons_of_pos _ (by simp)
    · have hxf : (x.id == row.id) = false := by simpa using hx
      have hfx : (if x.id == row.id then
          { x with filePath := row.filePath, title := row.title, keywords := row.keywords }
         else x) = x := by rw [if_neg (by simp [hxf])]
      rw [hfx, List.find?_cons_of_neg _ (by simp [hxf])]
      apply ih
      simp only [List.any_cons, Bool.or_eq_true] at h
      rcases h with h | h
      · exact absurd h hx
      · exact h

theorem find?_append_single_meta (l : List MetaRow) (row : MetaRow)
    (h : l.any (fun r => r.id == row.id) = false) :
    (l ++ [row]).find? (fun r => r.id == row.id) = some row := by
  induction l with
  | nil => exact List.find?_cons_of_pos _ (by simp)
  | cons x xs ih =>
    simp only [List.any_cons, Bool.or_eq_false_iff] at h
    rw [List.cons_append, List.find?_cons_of_neg _ (by simp [h.1])]
    exact ih h.2

theorem find?_upsertMeta (l : List MetaRow) (row : MetaRow) :
    (upsertMeta l row).find? (fun r => r.id == row.id) =
      some { id := row.id, filePath := row.filePath, title := row.title,
             keywords := row.keywords } := by
  unfold upsertMeta
  by_cases hany : l.any (fun r => r.id == row.id) = true
  · rw [if_pos hany]
    exact find?_map_updMeta l row hany
  · have hf : l.any (fun r => r.id == row.id) = false := by simpa using hany
    rw [if_neg (by simp [hf])]
    rw [find?_append_single_meta l row hf]

theorem eq_updContent (row x : ContentRow) (hx : (x.id == row.id) = true) :
    (if x.id == row.id then { x with content := row.content } else x) =
    ({ id := row.id, content := row.content } : ContentRow) := by
  have hid : x.id = row.id := by simpa using hx
  rw [if_pos hx]
  cases x
  simp_all

theorem find?_map_updContent (l : List ContentRow) (row : ContentRow)
    (h : l.any (fun r => r.id == row.id) = true) :
    (l.map (fun r => if r.id == row.id then { r with content := row.content } else r)).find?
      (fun r => r.id == row.id) = some { id := row.id, content := row.content } := by
  induction l with
  | nil => simp at h
  | cons x xs ih =>
    rw [List.map_cons]
    by_cases hx : (x.id == row.id) = true
    · rw [eq_updContent row x hx]
      exact List.find?_cons_of_pos _ (by simp)
    · have hxf : (x.id == row.id) = false := by simpa using hx
      have hfx : (if x.id == row.id then { x with content := row.content } else x) = x := by
        rw [if_neg (by simp [hxf])]
      rw [hfx, List.find?_cons_of_neg _ (by simp [hxf])]
      apply ih
      simp only [List.any_cons, Bool.or_eq_true] at h
      rcases h with h | h
      · exact absurd h hx
      · exact h

theorem find?_append_single_content (l : List ContentRow) (row : ContentRow)
    (h : l.any (fun r => r.id == row.id) = false) :
    (l ++ [row]).find? (fun r => r.id == row.id) = some row := by
  induction l with
  | nil => exact List.find?_cons_of_pos _ (by simp)
  | cons x xs ih =>
    simp only [List.any_cons, Bool.or_eq_false_iff] at h
    rw [List.cons_append, List.find?_cons_of_neg _ (by simp [h.1])]
    exact ih h.2

theorem find?_upsertContent (l : List ContentRow) (row : ContentRow) :
    (upsertContent l row).find? (fun r => r.id == row.id) =
      some { id := row.id, content := row.content } := by
  unfold upsertContent
  by_cases hany : l.any (fun r => r.id == row.id) = true
  · rw [if_pos hany]
    exact find?_map_updContent l row hany
  · have hf : l.any (fun r => r.id == row.id) = false := by simpa using hany
    rw [if_neg (by simp [hf])]
    rw [find?_append_single_content l row hf]

theorem mem_upsertMeta (l : List MetaRow) (row : MetaRow) :
    ({ id := row.id, filePath := row.filePath, title := row.title,
       keywords := row.keywords } : MetaRow) ∈ upsertMeta l row :=
  List.mem_of_find?_eq_some (find?_upsertMeta l row)

theorem mem_upsertContent (l : List ContentRow) (row : ContentRow) :
    ({ id := row.id, content := row.content } : ContentRow) ∈ upsertContent l row :=
  List.mem_of_find?_eq_some (find?_upsertContent l row)

/-! Search results draw their ids from the articles table. -/

theorem mem_ftsRows_id {env : SqlEnv} {s : KbState} {q : String}
    {rk : String → String → Int} {hit : SearchResult} (h : hit ∈ ftsRows env s q rk) :
    ∃ a ∈ s.articles, hit.id = a.id := by
  rcases (mem_ljoin _ _ _).mp h with ⟨fr, _, hmem⟩
  rcases List.mem_map.mp hmem with ⟨a, ha, hhit⟩
  exact ⟨a, List.mem_of_mem_filter ha, by rw [← hhit]; rfl⟩

theorem mem_likeRows_id {s : KbState} {q : String} {hit : SearchResult}
    (h : hit ∈ likeRows s q) : ∃ a ∈ s.articles, hit.id = a.id := by
  rcases (mem_ljoin _ _ _).mp h with ⟨cr, _, hmem⟩
  rcases List.mem_map.mp hmem with ⟨a, ha, hhit⟩
  exact ⟨a, List.mem_of_mem_filter ha, by rw [← hhit]; rfl⟩

theorem mem_searchRows_id {env : SqlEnv} {s : KbState} {q : String} {hit : SearchResult}
    (h : hit ∈ searchRows env s q) : ∃ a ∈ s.articles, hit.id = a.id := by
  unfold searchRows at h
  cases hcap : s.cap
  case fallback =>
    rw [hcap] at h
    exact mem_likeRows_id h
  case stemmed =>
    rw [hcap] at h
    by_cases hb : env.bm25Ok
    · rw [if_pos hb] at h
      exact mem_ftsRows_id ((List.perm_insertionSort rankLE _).mem_iff.mp h)
    · rw [if_neg hb] at h
      exact mem_ftsRows_id h
  case plain =>
    rw [hcap] at h
    by_cases hb : env.bm25Ok
    · rw [if_pos hb] at h
      exact mem_ftsRows_id ((List.perm_insertionSort rankLE _).mem_iff.mp h)
    · rw [if_neg hb] at h
      exact mem_ftsRows_id h

theorem mem_takeLim {α : Type} {lim : Int} {l : List α} {a : α} (h : a ∈ takeLim lim l) :
    a ∈ l := by
  unfold takeLim at h
  split at h
  · exact h
  · exact List.take_subset _ _ h

theorem search_ok_id {env : SqlEnv} {s : KbState} {q : String} {lim : Int}
    {res : List SearchResult} (h : search env s q lim = .ok res) {hit : SearchResult}
    (hm : hit ∈ res) : ∃ a ∈ s.articles, hit.id = a.id := by
  unfold search at h
  split at h
  · cases h
  · cases h
    exact mem_searchRows_id (mem_takeLim hm)

theorem mem_filterOut_meta {l : List MetaRow} {id : String} {r : MetaRow}
    (h : r ∈ l.filter (fun r => !(r.id == id))) : r.id ≠ id := by
  have := List.of_mem_filter h
  simpa using this

/-! The capability state is never touched after initialization. -/

theorem cap_indexArticle (env : SqlEnv) (f : WriteFaults) (s : KbState) (a : Article) :
    (indexArticle env f s a).1.cap = s.cap := by
  unfold indexArticle
  dsimp only
  repeat' split <;> try rfl

theorem cap_jsClose (s : KbState) : (jsClose s).cap = s.cap := by
  unfold jsClose
  split <;> rfl

theorem cap_persistRun (fsOk : Bool) (s v : KbState) (h : persistRun fsOk s = .ok v) :
    v.cap = s.cap := by
  unfold persistRun jsExport at h
  split at h
  · cases h
  · split at h
    · cases h
      rfl
    · cases h

theorem cap_close (fsOk : Bool) (s : KbState) :
    (close fsOk s).1.cap = s.cap := by
  unfold close
  cases hm : persistRun fsOk s with
  | ok v =>
    dsimp only
    rw [cap_jsClose]
    exact cap_persistRun fsOk s v hm
  | error e =>
    dsimp only
    exact cap_jsClose s

theorem cap_deindexArticle (ff : Option String) (s : KbState) (id : String) :
    (deindexArticle ff s id).1.cap = s.cap := by
  unfold deindexArticle
  dsimp only
  repeat' split <;> try rfl

theorem cap_runOp (env : SqlEnv) (s : KbState) (op : KbOp) :
    (runOp env s op).cap = s.cap := by
  cases op with
  | indexOp f a => exact cap_indexArticle env f s a
  | deindexOp ff id => exact cap_deindexArticle ff s id
  | searchOp q lim => rfl
  | listOp page size => rfl
  | closeOp fsOk => exact cap_close fsOk s

theorem cap_runOps (env : SqlEnv) (ops : List KbOp) :
    ∀ s : KbState, (runOps env s ops).cap = s.cap := by
  induction ops with
  | nil => intro s; rfl
  | cons op ops ih =>
    intro s
    show (runOps env (runOp env s op) ops).cap = s.cap
    rw [ih (runOp env s op), cap_runOp]

/-! Successful de-indexing removes the id from the articles table. -/

theorem deindex_success_articles (ff : Option String) (s : KbState) (id : String)
    (h : (deindexArticle ff s id).2 = none) :
    (deindexArticle ff s id).1.articles = s.articles.filter (fun r => !(r.id == id)) := by
  unfold deindexArticle at h ⊢
  by_cases hc : s.closed = true
  · rw [if_pos hc] at h
    simp at h
  · rw [if_neg hc] at h ⊢
    dsimp only at h ⊢
    cases ff with
    | none => rfl
    | some m => simp at h

/-! Listed articles draw their ids from the articles table. -/

theorem listArticles_ok_id {s : KbState} {page size : Int} {rows : List Article}
    (h : listArticles s page size = .ok rows) {art : Article} (hm : art ∈ rows) :
    ∃ r ∈ s.articles, art.id = r.id := by
  unfold listArticles at h
  split at h
  · cases h
  · cases h
    rcases List.mem_map.mp hm with ⟨r, hr, hart⟩
    refine ⟨r, ?_, by rw [← hart]⟩
    exact List.drop_subset _ _ (mem_takeLim hr)

/-! Generic takeWhile and dropWhile facts used by the regex matcher proofs. -/

theorem takeWhile_append_stop {α : Type} {p : α → Bool} :
    ∀ (a : List α) (b : List α), (∃ x ∈ a, p x = false) →
      (a ++ b).takeWhile p = a.takeWhile p := by
  intro a
  induction a with
  | nil => intro b h; simp at h
  | cons x xs ih =>
    intro b h
    by_cases hx : p x = true
    · rw [List.cons_append, List.takeWhile_cons_of_pos hx, List.takeWhile_cons_of_pos hx]
      rcases h with ⟨y, hy, hyf⟩
      rcases List.mem_cons.mp hy with rfl | hy2
      · rw [hx] at hyf; cases hyf
      · rw [ih b ⟨y, hy2, hyf⟩]
    · have hxf : p x = false := by simpa using hx
      rw [List.cons_append, List.takeWhile_cons_of_neg (by simp [hxf]),
        List.takeWhile_cons_of_neg (by simp [hxf])]

theorem takeWhile_append_all {α : Type} {p : α → Bool} :
    ∀ (a : List α) (b : List α), (∀ x ∈ a, p x = true) →
      (a ++ b).takeWhile p = a ++ b.takeWhile p := by
  intro a
  induction a with
  | nil => intro b _; rfl
  | cons x xs ih =>
    intro b h
    rw [List.cons_append, List.takeWhile_cons_of_pos (h x (List.mem_cons_self x xs)),
      ih b (fun y hy => h y (List.mem_cons_of_mem x hy)), List.cons_append]

theorem takeWhile_all {α : Type} {p : α → Bool} (l : List α) (h : ∀ x ∈ l, p x = true) :
    l.takeWhile p = l := by
  have := takeWhile_append_all (p := p) l [] h
  simpa using this

theorem drop_length_takeWhile {α : Type} (p : α → Bool) :
    ∀ l : List α, l.drop (l.takeWhile p).length = l.dropWhile p := by
  intro l
  induction l with
  | nil => rfl
  | cons x xs ih =>
    by_cases hx : p x = true
    · rw [List.takeWhile_cons_of_pos hx, List.dropWhile_cons_of_pos hx]
      simpa using ih
    · have hxf : p x = false := by simpa using hx
      rw [List.takeWhile_cons_of_neg (by simp [hxf]), List.dropWhile_cons_of_neg (by simp [hxf])]
      rfl

theorem head_dropWhile {α : Type} (p : α → Bool) :
    ∀ (l : List α) (d : α) (ds : List α), l.dropWhile p = d :: ds → p d = false := by
  intro l
  induction l with
  | nil => intro d ds h; cases h
  | cons x xs ih =>
    intro d ds h
    by_cases hx : p x = true
    · rw [List.dropWhile_cons_of_pos hx] at h
      exact ih d ds h
    · have hxf : p x = false := by simpa using hx
      rw [List.dropWhile_cons_of_neg (by simp [hxf])] at h
      injection h with h1 _
      rw [h1] at hxf
      exact hxf

theorem dropWhile_subset {α : Type} (p : α → Bool) :
    ∀ (l : List α) (x : α), x ∈ l.dropWhile p → x ∈ l := by
  intro l
  induction l with
  | nil => intro x h; simp at h
  | cons y ys ih =>
    intro x h
    by_cases hy : p y = true
    · rw [List.dropWhile_cons_of_pos hy] at h
      exact List.mem_cons_of_mem y (ih x h)
    · have hyf : p y = false := by simpa using hy
      rw [List.dropWhile_cons_of_neg (by simp [hyf])] at h
      exact h

theorem dropWhile_idem {α : Type} (p : α → Bool) (l : List α) :
    (l.dropWhile p).dropWhile p = l.dropWhile p := by
  cases hd : l.dropWhile p with
  | nil => rfl
  | cons d ds =>
    rw [List.dropWhile_cons_of_neg (by simp [head_dropWhile p l d ds hd])]

/-! Scanning passes over lines that cannot host a match. -/

theorem scan_inner (t : List Char) :
    ∀ rest : List Char, '\n' ∉ rest → '\r' ∉ rest →
      scan (rest ++ '\n' :: t) false = scan t true := by
  intro rest
  induction rest with
  | nil =>
    intro _ _
    show scan ('\n' :: t) false = scan t true
    simp [scan]
  | cons c cs ih =>
    intro hnl hcr
    have hc1 : c ≠ '\n' := fun h => hnl (h ▸ List.mem_cons_self c cs)
    have hc2 : c ≠ '\r' := fun h => hcr (h ▸ List.mem_cons_self c cs)
    show scan (c :: (cs ++ '\n' :: t)) false = scan t true
    simp only [scan, Bool.false_and, Bool.false_eq_true, if_false, hc1, hc2,
      decide_eq_false, Bool.or_self]
    exact ih (fun h => hnl (List.mem_cons_of_mem c h)) (fun h => hcr (List.mem_cons_of_mem c h))

theorem scan_skip_line (l t : List Char)
    (hhash : l.head? ≠ some '#') (hnl : '\n' ∉ l) (hcr : '\r' ∉ l) :
    scan (l ++ '\n' :: t) true = scan t true := by
  cases l with
  | nil =>
    show scan ('\n' :: t) true = scan t true
    simp [scan]
  | cons c cs =>
    have hc : c ≠ '#' := fun h => hhash (by simp [h])
    have hc1 : c ≠ '\n' := fun h => hnl (h ▸ List.mem_cons_self c cs)
    have hc2 : c ≠ '\r' := fun h => hcr (h ▸ List.mem_cons_self c cs)
    show scan (c :: (cs ++ '\n' :: t)) true = scan t true
    simp only [scan, hc, decide_eq_false, Bool.true_and, Bool.false_eq_true, if_false,
      hc1, hc2, Bool.or_self]
    exact scan_inner t cs (fun h => hnl (List.mem_cons_of_mem c h))
      (fun h => hcr (List.mem_cons_of_mem c h))

theorem not_ws_isDot {d : Char} (h : isWsChar d = false) : isDotChar d = true := by
  unfold isWsChar at h
  unfold isDotChar
  simp only [Bool.or_eq_false_iff, decide_eq_false_iff_not] at h
  obtain ⟨⟨⟨⟨⟨g1, g2⟩, g3⟩, g4⟩, g5⟩, g6⟩ := h
  simp [g3, g4]

/-! On a heading line whose text stays within the line, the regex matches
with the expected capture. -/

theorem matchTail_heading (c : Char) (rest tail : List Char)
    (hws : isWsChar c = true)
    (hnl : '\n' ∉ c :: rest) (hcr : '\r' ∉ c :: rest)
    (hnw : ∃ x ∈ c :: rest, isWsChar x = false)
    (htail : tail = [] ∨ ∃ t2, tail = '\n' :: t2) :
    matchTail ((c :: rest) ++ tail) = some ((c :: rest).dropWhile isWsChar) := by
  have h1 : ((c :: rest) ++ tail).takeWhile isWsChar = (c :: rest).takeWhile isWsChar :=
    takeWhile_append_stop (c :: rest) tail hnw
  unfold matchTail
  rw [h1]
  have hm : ((c :: rest).takeWhile isWsChar).length =
      (rest.takeWhile isWsChar).length + 1 := by
    rw [List.takeWhile_cons_of_pos hws]
    rfl
  rw [hm]
  have hmle : (rest.takeWhile isWsChar).length + 1 ≤ (c :: rest).length := by
    have := (List.takeWhile_prefix (p := isWsChar) (l := rest)).length_le
    simp only [List.length_cons]
    omega
  have hdrop : ((c :: rest) ++ tail).drop ((rest.takeWhile isWsChar).length + 1) =
      (c :: rest).dropWhile isWsChar ++ tail := by
    rw [List.drop_append_of_le_length hmle]
    congr 1
    rw [← drop_length_takeWhile isWsChar (c :: rest), hm]
  obtain ⟨d, ds, hd⟩ : ∃ d ds, (c :: rest).dropWhile isWsChar = d :: ds := by
    rcases hcase : (c :: rest).dropWhile isWsChar with _ | ⟨d, ds⟩
    · rcases hnw with ⟨x, hx, hxf⟩
      have := (List.dropWhile_eq_nil_iff).mp hcase x hx
      rw [hxf] at this
      cases this
    · exact ⟨d, ds, rfl⟩
  have hdf : isWsChar d = false := head_dropWhile isWsChar (c :: rest) d ds hd
  have hddot : isDotChar d = true := not_ws_isDot hdf
  have hdots : ∀ x ∈ d :: ds, isDotChar x = true := by
    intro x hx
    have hxa : x ∈ c :: rest := dropWhile_subset isWsChar (c :: rest) x (hd ▸ hx)
    have hx1 : x ≠ '\n' := fun h => hnl (h ▸ hxa)
    have hx2 : x ≠ '\r' := fun h => hcr (h ▸ hxa)
    simp [isDotChar, hx1, hx2]
  have hcap : List.takeWhile isDotChar (d :: ds ++ tail) = d :: ds := by
    rw [takeWhile_append_all (d :: ds) tail hdots]
    rcases htail with rfl | ⟨t2, rfl⟩
    · simp
    · rw [List.takeWhile_cons_of_neg (by simp [isDotChar])]
      simp
  rw [pickK, hdrop, hd]
  simp only [List.cons_append, hddot, if_true]
  rw [← List.cons_append, hcap]

/-! Line decomposition of contents built from explicit lines. -/

theorem linesOf_no_nl (a : List Char) (h : '\n' ∉ a) : linesOf a = [a] := by
  induction a with
  | nil => rfl
  | cons c cs ih =>
    have hc : c ≠ '\n' := fun hh => h (hh ▸ List.mem_cons_self c cs)
    have ihh := ih (fun hh => h (List.mem_cons_of_mem c hh))
    rw [linesOf, if_neg hc, ihh]

theorem linesOf_append (a b : List Char) (h : '\n' ∉ a) :
    linesOf (a ++ '\n' :: b) = a :: linesOf b := by
  induction a with
  | nil =>
    show linesOf ('\n' :: b) = [] :: linesOf b
    rw [linesOf, if_pos rfl]
  | cons c cs ih =>
    have hc : c ≠ '\n' := fun hh => h (hh ▸ List.mem_cons_self c cs)
    have ihh := ih (fun hh => h (List.mem_cons_of_mem c hh))
    rw [List.cons_append, linesOf, if_neg hc, ihh]

theorem trim_dropWhile (l : List Char) : trimChars (l.dropWhile isWsChar) = trimChars l := by
  unfold trimChars
  rw [dropWhile_idem]

theorem scan_joinPre (rest : List Char) :
    ∀ pres : List (List Char),
      (∀ l ∈ pres, l.head? ≠ some '#' ∧ '\n' ∉ l ∧ '\r' ∉ l) →
      scan (joinPre pres rest) true = scan rest true := by
  intro pres
  induction pres with
  | nil => intro _; rfl
  | cons l ls ih =>
    intro hp
    have hl := hp l (List.mem_cons_self l ls)
    show scan (l ++ '\n' :: joinPre ls rest) true = scan rest true
    rw [scan_skip_line l _ hl.1 hl.2.1 hl.2.2]
    exact ih (fun x hx => hp x (List.mem_cons_of_mem l hx))

theorem scan_heading (c : Char) (rest tail : List Char)
    (hws : isWsChar c = true)
    (hnl : '\n' ∉ c :: rest) (hcr : '\r' ∉ c :: rest)
    (hnw : ∃ x ∈ c :: rest, isWsChar x = false)
    (htail : tail = [] ∨ ∃ t2, tail = '\n' :: t2) :
    scan (('#' :: c :: rest) ++ tail) true = some ((c :: rest).dropWhile isWsChar) := by
  have hmt := matchTail_heading c rest tail hws hnl hcr hnw htail
  show scan ('#' :: ((c :: rest) ++ tail)) true = _
  rw [scan, hmt]
  simp

theorem isH1_false_of_head {l : List Char} (h : l.head? ≠ some '#') : isH1Line l = false := by
  cases l with
  | nil => rfl
  | cons c cs =>
    have hc : c ≠ '#' := fun hh => h (by simp [hh])
    cases cs with
    | nil => rfl
    | cons d ds => simp [isH1Line, hc]

theorem find?_h1_skip (rest2 : List (List Char)) :
    ∀ pres : List (List Char), (∀ l ∈ pres, isH1Line l = false) →
      (pres ++ rest2).find? isH1Line = rest2.find? isH1Line := by
  intro pres
  induction pres with
  | nil => intro _; rfl
  | cons l ls ih =>
    intro hp
    rw [List.cons_append, List.find?_cons_of_neg _ (by simp [hp l (List.mem_cons_self l ls)]),
      ih (fun x hx => hp x (List.mem_cons_of_mem l hx))]

theorem linesOf_joinPre (X : List Char) :
    ∀ pp : List (List Char), (∀ l ∈ pp, '\n' ∉ l) →
      linesOf (joinPre pp X) = pp ++ linesOf X := by
  intro pp
  induction pp with
  | nil => intro _; rfl
  | cons l ls ih =>
    intro hp
    show linesOf (l ++ '\n' :: joinPre ls X) = (l :: ls) ++ linesOf X
    rw [linesOf_append l _ (hp l (List.mem_cons_self l ls)),
      ih (fun x hx => hp x (List.mem_cons_of_mem l hx))]
    rfl

theorem extractTitle_eq_specH1 (pres : List (List Char)) (c : Char) (rest tail : List Char)
    (hp : ∀ l ∈ pres, l.head? ≠ some '#' ∧ '\n' ∉ l ∧ '\r' ∉ l)
    (hws : isWsChar c = true)
    (hnl : '\n' ∉ c :: rest) (hcr : '\r' ∉ c :: rest)
    (hnw : ∃ x ∈ c :: rest, isWsChar x = false)
    (htail : tail = [] ∨ ∃ t2, tail = '\n' :: t2) :
    extractTitle (String.mk (joinPre pres (('#' :: c :: rest) ++ tail))) =
      some (String.mk (trimChars (c :: rest))) ∧
    specH1Title (String.mk (joinPre pres (('#' :: c :: rest) ++ tail))) =
      some (String.mk (trimChars (c :: rest))) := by
  have htolist : (String.mk (joinPre pres (('#' :: c :: rest) ++ tail))).toList
      = joinPre pres (('#' :: c :: rest) ++ tail) := rfl
  have hnlh : '\n' ∉ ('#' :: c :: rest) := by
    intro hh
    rcases List.mem_cons.mp hh with h1 | h2
    · exact absurd h1 (by decide)
    · exact hnl h2
  have hpres := fun l hl => isH1_false_of_head (hp l hl).1
  constructor
  · unfold extractTitle
    rw [htolist, scan_joinPre _ pres hp, scan_heading c rest tail hws hnl hcr hnw htail]
    show some (String.mk (trimChars (List.dropWhile isWsChar (c :: rest)))) = _
    rw [trim_dropWhile]
  · unfold specH1Title
    rw [htolist]
    have hfind : (linesOf (joinPre pres (('#' :: c :: rest) ++ tail))).find? isH1Line
        = some ('#' :: c :: rest) := by
      rcases htail with rfl | ⟨t2, rfl⟩
      · rw [List.append_nil, linesOf_joinPre _ pres (fun l hl => (hp l hl).2.1),
          linesOf_no_nl _ hnlh, find?_h1_skip _ pres hpres]
        exact List.find?_cons_of_pos _ (by simp [isH1Line, hws])
      · rw [linesOf_joinPre _ pres (fun l hl => (hp l hl).2.1), linesOf_append _ t2 hnlh,
          find?_h1_skip _ pres hpres]
        exact List.find?_cons_of_pos _ (by simp [isH1Line, hws])
    rw [hfind]
    rfl

/-! Effects of a fault-free indexArticle on the four state components. -/

theorem indexArticle_ok_parts (env : SqlEnv) (s : KbState) (a : Article)
    (hc : s.closed = false) :
    (indexArticle env noFaults s a).2 = none ∧
    (indexArticle env noFaults s a).1.articles =
      upsertMeta s.articles
        { id := a.id, filePath := a.filePath, title := storedTitleFor a.title a.content,
          keywords := a.keywords } ∧
    (indexArticle env noFaults s a).1.contents =
      upsertContent s.contents { id := a.id, content := env.stripMd a.content } ∧
    (indexArticle env noFaults s a).1.fts =
      ftsStep s.cap none s.fts a.id (env.stripMd a.content) := by
  unfold indexArticle
  rw [if_neg (by simp [hc])]
  exact ⟨rfl, rfl, rfl, rfl⟩

theorem takeLim_all {α : Type} {lim : Int} {l : List α} (h : (l.length : Int) ≤ lim) :
    takeLim lim l = l := by
  unfold takeLim
  split
  · rfl
  · have hle : l.length ≤ lim.toNat := by omega
    exact List.take_of_length_le hle

/-! Token containment implies a hit in each of the three search modes. -/

theorem ftsMatch_of_token (st : String → String) (q doc : String)
    (hq : singleTokB q = true) (hd : hasTokenCI doc q = true) :
    ftsMatchB st q doc = true := by
  unfold singleTokB at hq
  unfold hasTokenCI at hd
  unfold ftsMatchB
  have hqe : rawTokens q.toList = [q.toList] := by simpa using hq
  rw [hqe]
  simp only [List.all_cons, List.all_nil, Bool.and_true, List.any_eq_true]
  simp only [List.any_eq_true] at hd
  rcases hd with ⟨d, hdm, hde⟩
  have hdeq : lowL d = lowL q.toList := by simpa using hde
  exact ⟨d, hdm, by rw [hdeq]; simp⟩

theorem likeMatch_of_token (doc pat : String) (hd : hasTokenCI doc pat = true) :
    likeMatchB doc pat = true := by
  unfold hasTokenCI at hd
  simp only [List.any_eq_true] at hd
  rcases hd with ⟨d, hdm, hde⟩
  have hdeq : lowL d = lowL pat.toList := by simpa using hde
  unfold likeMatchB
  have hinf : lowL d <:+: lowL doc.toList := isInf_map_lowChar (rawTokens_isInf hdm)
  rw [hdeq] at hinf
  exact hasSub_of_isInf hinf

theorem id_mem_ftsRows {env : SqlEnv} {s : KbState} {q : String} {rk : String → String → Int}
    {fr : FtsRow} (hfr : fr ∈ s.fts)
    (hmatch : ftsMatchB (capStem env s.cap) q fr.content = true)
    {m : MetaRow} (hm : m ∈ s.articles) (hid : (m.id == fr.id) = true) :
    m.id ∈ (ftsRows env s q rk).map SearchResult.id := by
  unfold ftsRows
  apply List.mem_map.mpr
  refine ⟨mkHit m (rk q fr.content), ?_, rfl⟩
  apply (mem_ljoin _ _ _).mpr
  exact ⟨fr, List.mem_filter.mpr ⟨hfr, hmatch⟩,
    List.mem_map.mpr ⟨m, List.mem_filter.mpr ⟨hm, hid⟩, rfl⟩⟩

theorem id_mem_likeRows {s : KbState} {q : String}
    {cr : ContentRow} (hcr : cr ∈ s.contents)
    (hmatch : likeMatchB cr.content q = true)
    {m : MetaRow} (hm : m ∈ s.articles) (hid : (m.id == cr.id) = true) :
    m.id ∈ (likeRows s q).map SearchResult.id := by
  unfold likeRows
  apply List.mem_map.mpr
  refine ⟨mkHit m 0, ?_, rfl⟩
  apply (mem_ljoin _ _ _).mpr
  exact ⟨cr, List.mem_filter.mpr ⟨hcr, hmatch⟩,
    List.mem_map.mpr ⟨m, List.mem_filter.mpr ⟨hm, hid⟩, rfl⟩⟩

theorem id_mem_sort_map {l : List SearchResult} {x : String}
    (h : x ∈ l.map SearchResult.id) :
    x ∈ (List.insertionSort rankLE l).map SearchResult.id :=
  ((List.perm_insertionSort rankLE l).map SearchResult.id).mem_iff.mpr h

theorem closed_indexArticle (env : SqlEnv) (f : WriteFaults) (s : KbState) (a : Article) :
    (indexArticle env f s a).1.closed = s.closed := by
  unfold indexArticle
  dsimp only
  repeat' split <;> try rfl

/-- C6 amended: after indexing an article whose stripped content contains
the single token q, a search for q returns the article id in every
capability state, provided the number of matching rows does not exceed the
limit; with more matches than the limit the id can be truncated away. -/
theorem search_finds_token (env : SqlEnv) (s : KbState) (a : Article) (q : String) (lim : Int)
    (hc : s.closed = false)
    (hq : singleTokB q = true)
    (htok : hasTokenCI (env.stripMd a.content) q = true)
    (hcount : (((searchRows env (indexArticle env noFaults s a).1 q)).length : Int) ≤ lim) :
    search env (indexArticle env noFaults s a).1 q lim =
      .ok (searchRows env (indexArticle env noFaults s a).1 q) ∧
    a.id ∈ (searchRows env (indexArticle env noFaults s a).1 q).map SearchResult.id := by
  obtain ⟨hok, hmeta, hcont, hfts⟩ := indexArticle_ok_parts env s a hc
  have hclosed : (indexArticle env noFaults s a).1.closed = false := by
    rw [closed_indexArticle]; exact hc
  have hcap := cap_indexArticle env noFaults s a
  have hcrm : ({ id := a.id, content := env.stripMd a.content } : ContentRow) ∈
      (indexArticle env noFaults s a).1.contents := by
    rw [hcont]
    exact mem_upsertContent s.contents _
  have hmm : ({ id := a.id, filePath := a.filePath, title := storedTitleFor a.title a.content, keywords := a.keywords } : MetaRow) ∈
      (indexArticle env noFaults s a).1.articles := by
    rw [hmeta]
    exact mem_upsertMeta s.articles _
  have hmatch := ftsMatch_of_token
    (capStem env (indexArticle env noFaults s a).1.cap) q (env.stripMd a.content) hq htok
  constructor
  · unfold search
    rw [if_neg (by simp [hclosed]), takeLim_all hcount]
  · unfold searchRows
    cases hcc : (indexArticle env noFaults s a).1.cap
    case fallback =>
      exact id_mem_likeRows hcrm (likeMatch_of_token _ q htok) hmm (by simp)
    case stemmed =>
      have hfrm : ({ id := a.id, content := env.stripMd a.content } : FtsRow) ∈
          (indexArticle env noFaults s a).1.fts := by
        rw [hfts, show s.cap = SearchCap.stemmed from by rw [← hcap, hcc]]
        unfold ftsStep
        exact List.mem_append_right _ (List.mem_singleton.mpr rfl)
      rw [hcc] at hmatch
      by_cases hb : env.bm25Ok = true
      · simp only [hb, if_true]
        refine id_mem_sort_map (id_mem_ftsRows hfrm ?_ hmm (by simp))
        rw [hcc]
        exact hmatch
      · have hbf : env.bm25Ok = false := by simpa using hb
        simp only [hbf, Bool.false_eq_true, if_false]
        refine id_mem_ftsRows hfrm ?_ hmm (by simp)
        rw [hcc]
        exact hmatch
    case plain =>
      have hfrm : ({ id := a.id, content := env.stripMd a.content } : FtsRow) ∈
          (indexArticle env noFaults s a).1.fts := by
        rw [hfts, show s.cap = SearchCap.plain from by rw [← hcap, hcc]]
        unfold ftsStep
        exact List.mem_append_right _ (List.mem_singleton.mpr rfl)
      rw [hcc] at hmatch
      by_cases hb : env.bm25Ok = true
      · simp only [hb, if_true]
        refine id_mem_sort_map (id_mem_ftsRows hfrm ?_ hmm (by simp))
        rw [hcc]
        exact hmatch
      · have hbf : env.bm25Ok = false := by simpa using hb
        simp only [hbf, Bool.false_eq_true, if_false]
        refine id_mem_ftsRows hfrm ?_ hmm (by simp)
        rw [hcc]
        exact hmatch

/-! Arithmetic of the last page and projections used by the pagination and
error-reporting claims. -/

theorem pageCeil_bounds (N St : Nat) (hSt : 1 ≤ St) (hN : 1 ≤ N) :
    St * (pageCeil N St - 1) < N ∧ N ≤ St * pageCeil N St := by
  unfold pageCeil
  have hdm := Nat.div_add_mod (N + St - 1) St
  have hmlt : (N + St - 1) % St < St := Nat.mod_lt _ (by omega)
  have hP1 : 1 ≤ (N + St - 1) / St := by
    rw [Nat.le_div_iff_mul_le (by omega)]
    omega
  obtain ⟨P', hP'⟩ : ∃ P', (N + St - 1) / St = P' + 1 :=
    ⟨(N + St - 1) / St - 1, by omega⟩
  rw [hP'] at hdm ⊢
  rw [Nat.mul_succ] at hdm ⊢
  simp only [Nat.add_sub_cancel]
  generalize hK : St * P' = K at hdm ⊢
  omega

theorem listArticles_ok (s : KbState) (p S : Int) (hc : s.closed = false) :
    listArticles s p S = .ok ((takeLim S (s.articles.drop ((p - 1) * S).toNat)).map
      (fun r => ({ id := r.id, filePath := r.filePath, title := r.title, keywords := r.keywords, content := "" } : Article))) := by
  unfold listArticles
  rw [if_neg (by simp [hc])]

theorem indexArticle_err_name (env : SqlEnv) (f : WriteFaults) (s : KbState) (a : Article)
    (e : JsErr) (h : (indexArticle env f s a).2 = some e) : e.name = "DatabaseError" := by
  unfold indexArticle at h
  by_cases hcl : s.closed = true
  · rw [if_pos hcl] at h
    cases h
    rfl
  · rw [if_neg hcl] at h
    dsimp only at h
    rcases hm : f.meta with _ | m
    · rw [hm] at h
      rcases hcnt : f.content with _ | m2
      · rw [hcnt] at h
        rcases hfs : f.fs with _ | m3
        · rw [hfs] at h
          cases h
        · rw [hfs] at h
          cases h
          rfl
      · rw [hcnt] at h
        cases h
        rfl
    · rw [hm] at h
      cases h
      rfl

/-! Remaining helper lemmas for close and page arithmetic. -/

theorem jsClose_closed (s : KbState) : (jsClose s).closed = true := by
  unfold jsClose
  split
  · assumption
  · rfl

theorem close_of_closed (fsOk : Bool) (s : KbState) (h : s.closed = true) :
    close fsOk s = (s, none) := by
  unfold close persistRun jsExport jsClose
  rw [if_pos h]
  dsimp only
  rw [if_pos h]

theorem toNat_pred_mul (P : Nat) (S : Int) (hP : 1 ≤ P) (hS : 1 ≤ S) :
    (((P : Int) - 1) * S).toNat = (P - 1) * S.toNat := by
  have h1 : ((P : Int) - 1) = ((P - 1 : Nat) : Int) := by omega
  have h2 : S = (S.toNat : Int) := by omega
  rw [h1]
  conv_lhs => rw [h2]
  rw [← Nat.cast_mul, Int.toNat_natCast]

theorem toNat_mul_nat (P : Nat) (S : Int) (hS : 1 ≤ S) :
    ((P : Int) * S).toNat = P * S.toNat := by
  have h2 : S = (S.toNat : Int) := by omega
  conv_lhs => rw [h2]
  rw [← Nat.cast_mul, Int.toNat_natCast]

/-! The ten claims. -/

/-- C1: the spec and the repository design document require the createArticle
coordinator to delete the newly written file when the index write fails, so
that reading it afterwards fails with a not-found error.  The code performs
no such compensation: in a run where the file write succeeds and the
metadata insert throws, the handler merely reports the error, the orphan
file is still present, and reading it succeeds. -/
theorem c1_create_orphan_remains :
    c1Run.2.1 = { text := "Failed to create article: Failed to index article: disk I/O error",
                  isError := true } ∧
    c1Run.2.2 = some (dbErr "Failed to index article: " "disk I/O error") ∧
    readArticle c1Run.1.files "/kb/articles/a1.md" = .ok "hello" := by
  refine ⟨by decide, by decide, by decide⟩

/-- C2 counterexample: in an update run where the file overwrite succeeds
and the index write then fails, the error that reaches the handler is a
DatabaseError and the caller sees only a generic failure message; no
PartialUpdateError is involved. -/
theorem c2_update_error_not_partial :
    fsLookup c2Run.1.files "/kb/articles/u1.md" = some "new text" ∧
    c2Run.2.2 = some { name := "DatabaseError", msg := "Failed to index article: boom" } ∧
    c2Run.2.1 = { text := "Failed to update article: Failed to index article: boom",
                  isError := true } ∧
    ("DatabaseError" : String) ≠ "PartialUpdateError" := by
  refine ⟨by decide, by decide, by decide, by decide⟩

/-- C2 amended: when the overwrite succeeds and the index write fails, the
updateArticle handler reports a generic failure whose text wraps the thrown
message, and the underlying error is always the generic DatabaseError; the
code has no distinguishable PartialUpdateError. -/
theorem c2_update_generic_error (env : SqlEnv) (dbf : WriteFaults) (artDir : String)
    (sys : Sys) (id content : String) (title kw : Option String) (e : JsErr)
    (he : (indexArticle env dbf sys.db
      { id := id, filePath := artDir ++ "/" ++ id ++ ".md", title := title, keywords := kw,
        content := content }).2 = some e) :
    (updateArticleTool env none dbf artDir sys id content title kw).2.1 =
      { text := "Failed to update article: " ++ e.msg, isError := true } ∧
    e.name = "DatabaseError" := by
  have hname := indexArticle_err_name env dbf sys.db _ e he
  refine ⟨?_, hname⟩
  unfold updateArticleTool updateArticle
  dsimp only
  rw [he]

/-- Witness for the amended C2 at a concrete run. -/
theorem c2_update_generic_error_witness :
    (indexArticle envFTS (metaFault "boom")
      ({ files := [("/kb/articles/u1.md", "old")], db := initState envFTS } : Sys).db
      { id := "u1", filePath := "/kb/articles" ++ "/" ++ "u1" ++ ".md", title := none,
        keywords := none, content := "new text" }).2 =
      some (dbErr "Failed to index article: " "boom") ∧
    ((updateArticleTool envFTS none (metaFault "boom") "/kb/articles"
        { files := [("/kb/articles/u1.md", "old")], db := initState envFTS }
        "u1" "new text" none none).2.1 =
      { text := "Failed to update article: " ++ (dbErr "Failed to index article: " "boom").msg,
        isError := true } ∧
     (dbErr "Failed to index article: " "boom").name = "DatabaseError") :=
  ⟨by decide,
   c2_update_generic_error envFTS (metaFault "boom") "/kb/articles"
     { files := [("/kb/articles/u1.md", "old")], db := initState envFTS }
     "u1" "new text" none none (dbErr "Failed to index article: " "boom") (by decide)⟩

/-- C3: the search capability is decided exactly once, by the porter-first,
plain-second, fallback-last probe of initSchema, and no later operation of
any kind changes it; search itself is a pure function branching on the
recorded state. -/
theorem c3_capability_decided_once (env : SqlEnv) (ops : List KbOp) :
    (runOps env (initState env) ops).cap =
      (if env.porterOk then SearchCap.stemmed
       else if env.plainOk then SearchCap.plain
       else SearchCap.fallback) :=
  (cap_runOps env ops (initState env)).trans rfl

/-- C4: with the persist step healthy, an indexArticle call fails exactly
when the metadata or content write fails; a full-text write fault is
swallowed and the metadata and content rows are still written. -/
theorem c4_fts_failure_swallowed (env : SqlEnv) (f : WriteFaults) (s : KbState) (a : Article)
    (hc : s.closed = false) (hfs : f.fs = none) :
    ((indexArticle env f s a).2 = none ↔ (f.meta = none ∧ f.content = none)) ∧
    (f.meta = none → f.content = none →
      ((indexArticle env f s a).1.articles =
        upsertMeta s.articles
          { id := a.id, filePath := a.filePath, title := storedTitleFor a.title a.content,
            keywords := a.keywords } ∧
       (indexArticle env f s a).1.contents =
        upsertContent s.contents { id := a.id, content := env.stripMd a.content })) := by
  unfold indexArticle
  rw [if_neg (by simp [hc])]
  dsimp only
  constructor
  · constructor
    · intro h2
      rcases hm : f.meta with _ | m
      · rw [hm] at h2
        rcases hcnt : f.content with _ | m2
        · exact ⟨rfl, rfl⟩
        · rw [hcnt] at h2
          simp at h2
      · rw [hm] at h2
        simp at h2
    · rintro ⟨hm, hcnt⟩
      rw [hm, hcnt, hfs]
  · intro hm hcnt
    rw [hm, hcnt, hfs]
    exact ⟨rfl, rfl⟩

/-- Witness for C4 with only the full-text write faulted. -/
theorem c4_fts_failure_swallowed_witness :
    (initState envFTS).closed = false ∧
    c4Faults.fs = none ∧
    (((indexArticle envFTS c4Faults (initState envFTS) (catArticle "w4")).2 = none ↔
        (c4Faults.meta = none ∧ c4Faults.content = none)) ∧
      (c4Faults.meta = none → c4Faults.content = none →
        (((indexArticle envFTS c4Faults (initState envFTS) (catArticle "w4")).1.articles =
          upsertMeta (initState envFTS).articles
            { id := (catArticle "w4").id, filePath := (catArticle "w4").filePath,
              title := storedTitleFor (catArticle "w4").title (catArticle "w4").content,
              keywords := (catArticle "w4").keywords } ∧
         (indexArticle envFTS c4Faults (initState envFTS) (catArticle "w4")).1.contents =
          upsertContent (initState envFTS).contents
            { id := (catArticle "w4").id,
              content := envFTS.stripMd (catArticle "w4").content })))) :=
  ⟨rfl, rfl, c4_fts_failure_swallowed envFTS c4Faults (initState envFTS) (catArticle "w4")
    rfl rfl⟩

/-- C5: after a successful deindexArticle, no successful search of any query
and no successful listing of any page returns the removed id, whatever the
capability state of the store. -/
theorem c5_deindex_complete (env : SqlEnv) (ff : Option String) (s : KbState) (id : String)
    (h : (deindexArticle ff s id).2 = none) :
    (∀ (q : String) (lim : Int) (res : List SearchResult),
      search env (deindexArticle ff s id).1 q lim = .ok res → id ∉ res.map SearchResult.id) ∧
    (∀ (page size : Int) (rows : List Article),
      listArticles (deindexArticle ff s id).1 page size = .ok rows →
        id ∉ rows.map Article.id) := by
  have harts := deindex_success_articles ff s id h
  constructor
  · intro q lim res hres hmem
    rcases List.mem_map.mp hmem with ⟨hit, hhit, hid⟩
    rcases search_ok_id hres hhit with ⟨m, hm, hmid⟩
    rw [harts] at hm
    exact mem_filterOut_meta hm (by rw [← hmid, hid])
  · intro page size rows hrows hmem
    rcases List.mem_map.mp hmem with ⟨art, hart, haid⟩
    rcases listArticles_ok_id hrows hart with ⟨m, hm, hmid⟩
    rw [harts] at hm
    exact mem_filterOut_meta hm (by rw [← hmid, haid])

/-- Witness for C5 at a concrete store. -/
theorem c5_deindex_complete_witness :
    (deindexArticle none c5State "gone").2 = none ∧
    ((∀ (q : String) (lim : Int) (res : List SearchResult),
        search envFB (deindexArticle none c5State "gone").1 q lim = .ok res →
          "gone" ∉ res.map SearchResult.id) ∧
     (∀ (page size : Int) (rows : List Article),
        listArticles (deindexArticle none c5State "gone").1 page size = .ok rows →
          "gone" ∉ rows.map Article.id)) :=
  ⟨by decide, c5_deindex_complete envFB none c5State "gone" (by decide)⟩

/-- C6 counterexample: eleven articles whose stripped content contains the
token cat are indexed, yet a search for cat with the default limit of ten
returns only the first ten ids, so the newly indexed article is missing even
though its stripped content contains the token. -/
theorem c6_limit_counterexample :
    hasTokenCI (envFB.stripMd (catArticle "new").content) "cat" = true ∧
    singleTokB "cat" = true ∧
    (search envFB elevenCats "cat" 10).map (fun l => l.map SearchResult.id) =
      .ok ["a0", "a1", "a2", "a3", "a4", "a5", "a6", "a7", "a8", "a9"] ∧
    ¬(("new" : String) ∈ ["a0", "a1", "a2", "a3", "a4", "a5", "a6", "a7", "a8", "a9"]) := by
  refine ⟨by decide, by decide, by decide, by decide⟩

/-- Witness for the amended C6 in the substring-fallback state. -/
theorem c6_search_finds_token_witness :
    (initState envFB).closed = false ∧
    singleTokB "cat" = true ∧
    hasTokenCI (envFB.stripMd (catArticle "w6").content) "cat" = true ∧
    (((searchRows envFB (indexArticle envFB noFaults (initState envFB)
        (catArticle "w6")).1 "cat").length : Int) ≤ 10) ∧
    (search envFB (indexArticle envFB noFaults (initState envFB) (catArticle "w6")).1
        "cat" 10 =
      .ok (searchRows envFB (indexArticle envFB noFaults (initState envFB)
        (catArticle "w6")).1 "cat") ∧
     (catArticle "w6").id ∈ (searchRows envFB (indexArticle envFB noFaults (initState envFB)
        (catArticle "w6")).1 "cat").map SearchResult.id) :=
  ⟨rfl, by decide, by decide, by decide,
   search_finds_token envFB (initState envFB) (catArticle "w6") "cat" 10 rfl
     (by decide) (by decide) (by decide)⟩

/-- C7: with at least one row and a positive page size, the last page
(1-indexed, offset pages-after-first times size) holds exactly the remainder,
the page after it is empty, and no page number whatsoever makes listArticles
fail; with zero rows every page is empty and still succeeds. -/
theorem c7_pagination (s : KbState) (S : Int) (hS : 1 ≤ S) (hc : s.closed = false) :
    (∃ rows, listArticles s ((pageCeil s.articles.length S.toNat : Nat) : Int) S = .ok rows ∧
      rows.length = s.articles.length -
        S.toNat * (pageCeil s.articles.length S.toNat - 1)) ∧
    listArticles s (((pageCeil s.articles.length S.toNat : Nat) : Int) + 1) S = .ok [] ∧
    (∀ p : Int, ∃ rows, listArticles s p S = .ok rows) := by
  have hSt1 : 1 ≤ S.toNat := by omega
  have hnneg : ¬(S < 0) := by omega
  refine ⟨?_, ?_, fun p => ⟨_, listArticles_ok s p S hc⟩⟩
  · refine ⟨_, listArticles_ok s _ S hc, ?_⟩
    rw [List.length_map]
    by_cases hN : s.articles.length = 0
    · have hP0 : pageCeil s.articles.length S.toNat = 0 := by
        unfold pageCeil
        rw [hN]
        exact Nat.div_eq_of_lt (by omega)
      rw [hP0]
      have hoff : ((((0 : Nat) : Int) - 1) * S).toNat = 0 := by omega
      rw [hoff]
      unfold takeLim
      rw [if_neg hnneg]
      rw [List.length_take, List.length_drop]
      omega
    · have hN1 : 1 ≤ s.articles.length := by omega
      obtain ⟨hb1, hb2⟩ := pageCeil_bounds s.articles.length S.toNat hSt1 hN1
      have hP1 : 1 ≤ pageCeil s.articles.length S.toNat := by
        by_contra hcon
        have hz : pageCeil s.articles.length S.toNat = 0 := by omega
        rw [hz] at hb2
        omega
      rw [toNat_pred_mul _ S hP1 hS]
      unfold takeLim
      rw [if_neg hnneg]
      rw [List.length_take, List.length_drop]
      rw [Nat.mul_comm (pageCeil s.articles.length S.toNat - 1) S.toNat]
      have hmul : S.toNat * pageCeil s.articles.length S.toNat =
          S.toNat * (pageCeil s.articles.length S.toNat - 1) + S.toNat := by
        obtain ⟨P2, hP2⟩ : ∃ P2, pageCeil s.articles.length S.toNat = P2 + 1 :=
          ⟨pageCeil s.articles.length S.toNat - 1, by omega⟩
        rw [hP2]
        simp [Nat.mul_succ]
      rw [hmul] at hb2
      generalize hK : S.toNat * (pageCeil s.articles.length S.toNat - 1) = K at hb1 hb2 ⊢
      omega
  · have h1 : (((pageCeil s.articles.length S.toNat : Nat) : Int) + 1 - 1) =
        ((pageCeil s.articles.length S.toNat : Nat) : Int) := by omega
    rw [listArticles_ok s _ S hc, h1, toNat_mul_nat _ S hS]
    have hge : s.articles.length ≤ pageCeil s.articles.length S.toNat * S.toNat := by
      by_cases hN : s.articles.length = 0
      · omega
      · have hcc := (pageCeil_bounds s.articles.length S.toNat hSt1 (by omega)).2
        rw [Nat.mul_comm]
        exact hcc
    rw [List.drop_eq_nil_of_le hge]
    unfold takeLim
    rw [if_neg hnneg]
    simp

/-- Witness for C7: ten articles at page size three give a last page of one
row and an empty page after it. -/
theorem c7_pagination_witness :
    (1 : Int) ≤ 3 ∧
    tenCats.closed = false ∧
    ((∃ rows, listArticles tenCats
        ((pageCeil tenCats.articles.length (3 : Int).toNat : Nat) : Int) 3 = .ok rows ∧
        rows.length = tenCats.articles.length -
          (3 : Int).toNat * (pageCeil tenCats.articles.length (3 : Int).toNat - 1)) ∧
     listArticles tenCats
        (((pageCeil tenCats.articles.length (3 : Int).toNat : Nat) : Int) + 1) 3 = .ok [] ∧
     (∀ p : Int, ∃ rows, listArticles tenCats p 3 = .ok rows)) :=
  ⟨by decide, by decide, c7_pagination tenCats 3 (by decide) (by decide)⟩

/-- C8 counterexample: for content whose first heading line has only
whitespace after the hash, the regex whitespace run crosses the line break
and the stored title is the text of the following line, not the trimmed text
of the first level-1 heading, which is empty. -/
theorem c8_regex_crosses_lines :
    ((indexArticle envFB noFaults (initState envFB) c8XArticle).1.articles.map
      MetaRow.title) = [some "# Real"] ∧
    specH1Title "# \n# Real" = some "" ∧
    (some "# Real" : Option String) ≠ some "" := by
  refine ⟨by decide, by decide, by decide⟩

/-- C8 amended: when no title is supplied and the first hash-initial line of
the carriage-return-free content is a proper heading with nonempty same-line
text, the stored title is exactly that text trimmed, the first level-1
heading of the content in the sense of the spec. -/
theorem c8_title_first_heading_line (env : SqlEnv) (s : KbState) (a : Article)
    (pres : List (List Char)) (c : Char) (rest tail : List Char)
    (hcontent : a.content = String.mk (joinPre pres (('#' :: c :: rest) ++ tail)))
    (htitle : a.title = none)
    (hc : s.closed = false)
    (hp : ∀ l ∈ pres, l.head? ≠ some '#' ∧ '\n' ∉ l ∧ '\r' ∉ l)
    (hws : isWsChar c = true)
    (hnl : '\n' ∉ c :: rest) (hcr : '\r' ∉ c :: rest)
    (hnw : ∃ x ∈ c :: rest, isWsChar x = false)
    (htail : tail = [] ∨ ∃ t2, tail = '\n' :: t2) :
    (indexArticle env noFaults s a).1.articles.find? (fun r => r.id == a.id) =
      some { id := a.id, filePath := a.filePath, title := specH1Title a.content,
             keywords := a.keywords } ∧
    specH1Title a.content = some (String.mk (trimChars (c :: rest))) := by
  obtain ⟨hex, hspec⟩ := extractTitle_eq_specH1 pres c rest tail hp hws hnl hcr hnw htail
  rw [← hcontent] at hex hspec
  obtain ⟨_, hmeta, _, _⟩ := indexArticle_ok_parts env s a hc
  have hst : storedTitleFor a.title a.content = specH1Title a.content := by
    unfold storedTitleFor
    rw [htitle, hex, hspec]
  refine ⟨?_, hspec⟩
  rw [hmeta, ← hst]
  exact find?_upsertMeta s.articles
    { id := a.id, filePath := a.filePath, title := storedTitleFor a.title a.content, keywords := a.keywords }

/-- Witness for the amended C8 at the concrete content of the spec scenario,
whose stored title is Hello. -/
theorem c8_title_first_heading_line_witness :
    c8Article.content =
      String.mk (joinPre [] (('#' :: ' ' :: "Hello".toList) ++ ('\n' :: "World about cats".toList))) ∧
    ((indexArticle envFB noFaults (initState envFB) c8Article).1.articles.find?
        (fun r => r.id == c8Article.id) =
      some { id := c8Article.id, filePath := c8Article.filePath,
             title := specH1Title c8Article.content, keywords := c8Article.keywords } ∧
     specH1Title c8Article.content = some (String.mk (trimChars (' ' :: "Hello".toList)))) ∧
    String.mk (trimChars (' ' :: "Hello".toList)) = "Hello" :=
  ⟨by decide,
   c8_title_first_heading_line envFB (initState envFB) c8Article []
     ' ' ("Hello".toList) ('\n' :: "World about cats".toList)
     (by decide) rfl rfl (by intro l hl; cases hl) (by decide) (by decide) (by decide)
     (by decide) (Or.inr ⟨"World about cats".toList, rfl⟩),
   by decide⟩

/-- C9: close never raises, is idempotent, leaves the handle closed, and a
first close from an open handle with a healthy disk flushes the snapshot to
the file. -/
theorem c9_close_idempotent (fsOk : Bool) (s : KbState) :
    (close fsOk s).2 = none ∧
    (close fsOk (close fsOk s).1).2 = none ∧
    (close fsOk s).1.closed = true ∧
    (close fsOk (close fsOk s).1).1 = (close fsOk s).1 ∧
    (s.closed = false → fsOk = true → (close fsOk s).1.file = some (snapshotOf s)) := by
  have hcl : (close fsOk s).1.closed = true := by
    unfold close
    dsimp only
    exact jsClose_closed _
  refine ⟨rfl, ?_, hcl, ?_, ?_⟩
  · rw [close_of_closed fsOk _ hcl]
  · rw [close_of_closed fsOk _ hcl]
  · intro hc hf
    unfold close persistRun jsExport jsClose
    rw [if_neg (by simp [hc]), hf]
    dsimp only
    rw [if_neg (by simp [hc])]
    rfl

/-- Witness for C9 at a fresh open store with a healthy disk. -/
theorem c9_close_idempotent_witness :
    (close true (initState envFB)).2 = none ∧
    (close true (close true (initState envFB)).1).2 = none ∧
    (close true (initState envFB)).1.file = some (snapshotOf (initState envFB)) :=
  ⟨(c9_close_idempotent true (initState envFB)).1,
   (c9_close_idempotent true (initState envFB)).2.1,
   (c9_close_idempotent true (initState envFB)).2.2.2.2 rfl rfl⟩

/-- C10 counterexample: an indexArticle call with an explicitly empty title
and content consisting of a hash and two spaces stores the empty string as
the title, because the backtracking capture is a lone space that trims to
the empty string. -/
theorem c10_empty_string_stored :
    ((indexArticle envFB noFaults (initState envFB) c10Article).1.articles.map
      MetaRow.title) = [some ""] ∧
    (some "" : Option String) ≠ none := by
  refine ⟨by decide, by decide⟩

/-- C10 amended: an empty supplied title is treated as absent, the stored
title being whatever extractTitle derives from the content, null when there
is no match; the derived value itself can still be the empty string. -/
theorem c10_empty_title_treated_absent (env : SqlEnv) (s : KbState) (a : Article)
    (ht : a.title = some "") (hc : s.closed = false) :
    (indexArticle env noFaults s a).1.articles.find? (fun r => r.id == a.id) =
      some { id := a.id, filePath := a.filePath, title := extractTitle a.content,
             keywords := a.keywords } := by
  obtain ⟨_, hmeta, _, _⟩ := indexArticle_ok_parts env s a hc
  have hst : storedTitleFor a.title a.content = extractTitle a.content := by
    unfold storedTitleFor
    rw [ht]
    simp
  rw [hmeta, ← hst]
  exact find?_upsertMeta s.articles
    { id := a.id, filePath := a.filePath, title := storedTitleFor a.title a.content, keywords := a.keywords }

/-- Witness for the amended C10 at an article with a usable heading. -/
theorem c10_empty_title_treated_absent_witness :
    c10WArticle.title = some "" ∧
    (initState envFB).closed = false ∧
    (indexArticle envFB noFaults (initState envFB) c10WArticle).1.articles.find?
        (fun r => r.id == c10WArticle.id) =
      some { id := c10WArticle.id, filePath := c10WArticle.filePath,
             title := extractTitle c10WArticle.content, keywords := c10WArticle.keywords } ∧
    extractTitle c10WArticle.content = some "T" :=
  ⟨rfl, rfl, c10_empty_title_treated_absent envFB (initState envFB) c10WArticle rfl rfl,
   by decide⟩
